import Mathlib

/-
  Verification of the elephas distributed-training orchestrator
  (elephas/spark_model.py) against its specification.

  Numeric arrays are embedded as lists of rationals; a WeightSet is the
  ordered list of per-layer arrays.  Weight arithmetic, the parameter
  store and the worker effects live outside src (elephas/utils,
  elephas/parameter, elephas/worker) and are modelled from the spec;
  everything else is translated from elephas/spark_model.py.
-/

namespace Elephas

/-- A WeightSet: ordered sequence of numeric arrays, one per layer tensor. -/
abbrev WeightSet := List (List ℚ)

/-- Modelled from the spec: Weight Arithmetic, elementwise subtract of two
WeightSets (`elephas.utils.subtract_params`, not under src). -/
def subtract_params (x y : WeightSet) : WeightSet :=
  List.zipWith (fun a b => List.zipWith (· - ·) a b) x y

/-- Modelled from the spec: Weight Arithmetic, divide-by-scalar of a
WeightSet (`elephas.utils.divide_by`, not under src). -/
def divide_by (x : WeightSet) (n : ℕ) : WeightSet :=
  x.map (fun a => a.map (fun v => v / (n : ℚ)))

/-- Modelled from the spec: Weight Arithmetic, elementwise add of two
WeightSets. -/
def add_params (x y : WeightSet) : WeightSet :=
  List.zipWith (fun a b => List.zipWith (· + ·) a b) x y

/-- Sum of a collection of WeightSets, folded from the first element. -/
def sum_params : List WeightSet → WeightSet
  | [] => []
  | g :: gs => gs.foldl add_params g

/-- Modelled from the spec: Parameter Store `apply_delta`:
`current = current - delta` (elephas/parameter, not under src). -/
def apply_delta (current delta : WeightSet) : WeightSet :=
  subtract_params current delta

lemma zipWith_sub_sub (a b c : List ℚ) :
    List.zipWith (· - ·) (List.zipWith (· - ·) a b) c
      = List.zipWith (· - ·) a (List.zipWith (· + ·) b c) := by
  induction a generalizing b c with
  | nil => simp
  | cons x xs ih =>
    cases b with
    | nil => simp
    | cons y ys =>
      cases c with
      | nil => simp
      | cons z zs => simp [ih, sub_sub]

lemma subtract_subtract (a b c : WeightSet) :
    subtract_params (subtract_params a b) c = subtract_params a (add_params b c) := by
  induction a generalizing b c with
  | nil => simp [subtract_params, add_params]
  | cons x xs ih =>
    cases b with
    | nil => simp [subtract_params, add_params]
    | cons y ys =>
      cases c with
      | nil => simp [subtract_params, add_params]
      | cons z zs =>
        simp only [subtract_params, add_params, List.zipWith_cons_cons]
        exact List.cons_eq_cons.mpr ⟨zipWith_sub_sub x y z, ih ys zs⟩

lemma zipWith_add_comm (a b : List ℚ) :
    List.zipWith (· + ·) a b = List.zipWith (· + ·) b a := by
  induction a generalizing b with
  | nil => cases b <;> simp
  | cons x xs ih =>
    cases b with
    | nil => simp
    | cons y ys => simp [ih, add_comm]

lemma add_params_comm (a b : WeightSet) : add_params a b = add_params b a := by
  induction a generalizing b with
  | nil => cases b <;> simp [add_params]
  | cons x xs ih =>
    cases b with
    | nil => simp [add_params]
    | cons y ys =>
      simp only [add_params, List.zipWith_cons_cons]
      exact List.cons_eq_cons.mpr ⟨zipWith_add_comm x y, ih ys⟩

lemma zipWith_add_assoc (a b c : List ℚ) :
    List.zipWith (· + ·) (List.zipWith (· + ·) a b) c
      = List.zipWith (· + ·) a (List.zipWith (· + ·) b c) := by
  induction a generalizing b c with
  | nil => simp
  | cons x xs ih =>
    cases b with
    | nil => simp
    | cons y ys =>
      cases c with
      | nil => simp
      | cons z zs => simp [ih, add_assoc]

lemma add_params_assoc (a b c : WeightSet) :
    add_params (add_params a b) c = add_params a (add_params b c) := by
  induction a generalizing b c with
  | nil => simp [add_params]
  | cons x xs ih =>
    cases b with
    | nil => simp [add_params]
    | cons y ys =>
      cases c with
      | nil => simp [add_params]
      | cons z zs =>
        simp only [add_params, List.zipWith_cons_cons]
        exact List.cons_eq_cons.mpr ⟨zipWith_add_assoc x y z, ih ys zs⟩

lemma divide_by_add (a b : WeightSet) (n : ℕ) :
    divide_by (add_params a b) n = add_params (divide_by a n) (divide_by b n) := by
  induction a generalizing b with
  | nil => simp [divide_by, add_params]
  | cons x xs ih =>
    cases b with
    | nil => simp [divide_by, add_params]
    | cons y ys =>
      simp only [divide_by, add_params, List.zipWith_cons_cons, List.map_cons]
      refine List.cons_eq_cons.mpr ⟨?_, ih ys⟩
      induction x generalizing y with
      | nil => simp
      | cons v vs ihx =>
        cases y with
        | nil => simp
        | cons w ws => simp [ihx, add_div]

lemma foldl_add_params_cons (l : List WeightSet) (x y : WeightSet) :
    l.foldl add_params (add_params x y) = add_params x (l.foldl add_params y) := by
  induction l generalizing y with
  | nil => rfl
  | cons z zs ih =>
    simp only [List.foldl]
    rw [add_params_assoc, ih]

lemma foldl_add_params_perm {l₁ l₂ : List WeightSet} (h : l₁.Perm l₂) (a : WeightSet) :
    l₁.foldl add_params a = l₂.foldl add_params a := by
  induction h generalizing a with
  | nil => rfl
  | cons x _ ih => simp only [List.foldl]; exact ih _
  | swap x y l =>
    simp only [List.foldl]
    rw [add_params_assoc, add_params_comm y x, ← add_params_assoc]
  | trans _ _ ih₁ ih₂ => exact (ih₁ a).trans (ih₂ a)

lemma sum_params_perm {l₁ l₂ : List WeightSet} (h : l₁.Perm l₂) :
    sum_params l₁ = sum_params l₂ := by
  induction h with
  | nil => rfl
  | cons x h' =>
    simp only [sum_params]
    exact foldl_add_params_perm h' x
  | swap x y l =>
    simp only [sum_params, List.foldl]
    rw [add_params_comm]
  | trans _ _ ih₁ ih₂ => exact ih₁.trans ih₂

/-- Observable events of one `_fit` call, in program order. -/
inductive FitEv
  | startServer
  | stopServer
  | dispatch
  | setWeights
deriving DecidableEq

/-- State of a SparkModel orchestrator (fields set by `SparkModel.__init__`,
spark_model.py lines 30-79).  `parameter_server` holds the weight store of
the server created at construction when the mode is not synchronous
(the server internals are modelled from the spec: Parameter Store);
`has_client` records whether a parameter client was created.
Training histories are opaque records, embedded as naturals. -/
structure SparkModel where
  mode : String
  frequency : String
  parameter_server_mode : String
  num_workers : Option ℕ
  batch_size : ℕ
  port : ℕ
  kwargs : List (String × String)
  weights : WeightSet
  parameter_server : Option WeightSet
  has_client : Bool
  training_histories : List ℕ
  is_mllib : Bool
deriving DecidableEq

/-- `SparkModel.__init__` (spark_model.py lines 30-79): records the
configuration, takes the weights of the compiled master model, and when
`mode != 'synchronous'` creates the parameter server (holding the
serialized model, hence the current weights) and the parameter client. -/
def SparkModel.init (model_weights : WeightSet) (mode frequency parameter_server_mode : String)
    (num_workers : Option ℕ) (batch_size port : ℕ) (kwargs : List (String × String))
    (is_mllib : Bool) : SparkModel :=
  { mode := mode
    frequency := frequency
    parameter_server_mode := parameter_server_mode
    num_workers := num_workers
    batch_size := batch_size
    port := port
    kwargs := kwargs
    weights := model_weights
    parameter_server := if mode ≠ "synchronous" then some model_weights else none
    has_client := mode != "synchronous"
    training_histories := []
    is_mllib := is_mllib }

/-- The configuration dictionary built by `SparkModel.get_config`
(spark_model.py lines 81-90): the five base entries plus the extra kwargs
merged in by `config.update(self.kwargs)`. -/
structure Config where
  parameter_server_mode : String
  mode : String
  frequency : String
  num_workers : Option ℕ
  batch_size : ℕ
  extra : List (String × String)
deriving DecidableEq

/-- `SparkModel.get_config` (spark_model.py lines 81-90). -/
def SparkModel.get_config (m : SparkModel) : Config :=
  { parameter_server_mode := m.parameter_server_mode
    mode := m.mode
    frequency := m.frequency
    num_workers := m.num_workers
    batch_size := m.batch_size
    extra := m.kwargs }

/-- `SparkModel._fit` (spark_model.py lines 191-233).  The worker effects
are inputs: `outcomes` are the `(gradient, history)` pairs collected from
`SparkWorker.train` in synchronous mode, and `deltas` are the deltas the
asynchronous workers push to the parameter server (elephas/worker and the
server loop are not under src; modelled from the spec).  Returns the
resulting orchestrator state and the linearized event trace:
start_server (196-197), dispatch and collect (214 or 220),
reconciliation (216 or 221-227), set_weights (231), stop_server (232-233). -/
def SparkModel.fit_inner (m : SparkModel) (outcomes : List (WeightSet × ℕ))
    (deltas : List WeightSet) : Except String SparkModel × List FitEv :=
  if m.mode = "asynchronous" ∨ m.mode = "hogwild" then
    let store := m.parameter_server.getD []
    let new_parameters := deltas.foldl apply_delta store
    (Except.ok { m with weights := new_parameters },
      [FitEv.startServer, FitEv.dispatch, FitEv.setWeights, FitEv.stopServer])
  else if m.mode = "synchronous" then
    let number_of_sub_models := outcomes.length
    let new_parameters := outcomes.foldl
      (fun acc outcome => subtract_params acc (divide_by outcome.1 number_of_sub_models))
      m.weights
    (Except.ok { m with weights := new_parameters
                        training_histories := m.training_histories ++ outcomes.map Prod.snd },
      [FitEv.dispatch, FitEv.setWeights])
  else
    (Except.error ("Unsupported mode " ++ m.mode), [])

/-- `SparkModel.fit` (spark_model.py lines 169-189): validates the mode
before any work is dispatched; an unsupported mode raises a ValueError
with nothing executed. -/
def SparkModel.fit_run (m : SparkModel) (outcomes : List (WeightSet × ℕ))
    (deltas : List WeightSet) : Except String SparkModel × List FitEv :=
  if m.mode = "asynchronous" ∨ m.mode = "synchronous" ∨ m.mode = "hogwild" then
    m.fit_inner outcomes deltas
  else
    (Except.error "Choose from one of the modes: asynchronous, synchronous or hogwild", [])

lemma sync_fold_eq (N : ℕ) :
    ∀ (gs : List WeightSet) (g init : WeightSet),
      (g :: gs).foldl (fun acc x => subtract_params acc (divide_by x N)) init
        = subtract_params init (divide_by (sum_params (g :: gs)) N) := by
  intro gs
  induction gs with
  | nil => intro g init; rfl
  | cons g' gs ih =>
    intro g init
    have step : (g :: g' :: gs).foldl (fun acc x => subtract_params acc (divide_by x N)) init
        = (g' :: gs).foldl (fun acc x => subtract_params acc (divide_by x N))
            (subtract_params init (divide_by g N)) := rfl
    rw [step, ih g' (subtract_params init (divide_by g N)), subtract_subtract]
    have hsum : sum_params (g :: g' :: gs) = add_params g (sum_params (g' :: gs)) := by
      simp only [sum_params, List.foldl]
      exact foldl_add_params_cons gs g g'
    rw [hsum, divide_by_add]

lemma sync_fit_weights (m : SparkModel) (hm : m.mode = "synchronous")
    (outcomes : List (WeightSet × ℕ)) (hne : outcomes ≠ []) (deltas : List WeightSet) :
    ∃ m', (m.fit_run outcomes deltas).1 = Except.ok m' ∧
      m'.weights = subtract_params m.weights
        (divide_by (sum_params (outcomes.map Prod.fst)) outcomes.length) := by
  cases outcomes with
  | nil => exact absurd rfl hne
  | cons o os =>
    have hrun : (m.fit_run (o :: os) deltas).1 = Except.ok
        { m with
          weights := (o :: os).foldl
            (fun acc outcome => subtract_params acc (divide_by outcome.1 (o :: os).length))
            m.weights
          training_histories := m.training_histories ++ (o :: os).map Prod.snd } := by
      simp [SparkModel.fit_run, SparkModel.fit_inner, hm]
    refine ⟨_, hrun, ?_⟩
    show (o :: os).foldl
        (fun acc outcome => subtract_params acc (divide_by outcome.1 (o :: os).length))
        m.weights = _
    have hmap : ((o :: os).map Prod.fst).foldl
          (fun acc g => subtract_params acc (divide_by g (o :: os).length)) m.weights
        = (o :: os).foldl
          (fun acc outcome => subtract_params acc (divide_by outcome.1 (o :: os).length))
          m.weights := List.foldl_map _ _ _ _
    rw [← hmap]
    exact sync_fold_eq (o :: os).length (os.map Prod.fst) o.1 m.weights

/-- Claim C1: in synchronous mode, for every non-empty collected sequence of
(gradient, history) results, fit sets the master weights to
initial_weights minus the sum over all results of the gradient divided
elementwise by N, where N is the number of collected results; and the
final value is independent of the accumulation order. -/
theorem c1_synchronous_fit_averaging (m : SparkModel) (hm : m.mode = "synchronous")
    (outcomes outcomes2 : List (WeightSet × ℕ)) (hne : outcomes ≠ [])
    (hperm : outcomes.Perm outcomes2) (deltas deltas2 : List WeightSet) :
    (∃ m', (m.fit_run outcomes deltas).1 = Except.ok m' ∧
        m'.weights = subtract_params m.weights
          (divide_by (sum_params (outcomes.map Prod.fst)) outcomes.length)) ∧
    (m.fit_run outcomes deltas).1.map SparkModel.weights
      = (m.fit_run outcomes2 deltas2).1.map SparkModel.weights := by
  have hne2 : outcomes2 ≠ [] := fun h2 => hne (List.Perm.eq_nil (h2 ▸ hperm))
  obtain ⟨m₁, h₁, hw₁⟩ := sync_fit_weights m hm outcomes hne deltas
  obtain ⟨m₂, h₂, hw₂⟩ := sync_fit_weights m hm outcomes2 hne2 deltas2
  refine ⟨⟨m₁, h₁, hw₁⟩, ?_⟩
  rw [h₁, h₂]
  simp only [Except.map]
  rw [hw₁, hw₂, sum_params_perm (hperm.map Prod.fst), hperm.length_eq]

/-- Witness for C1: a pre-converged two-partition run (both gradients
present, swapped accumulation order). -/
theorem c1_synchronous_fit_averaging_witness :
    (∃ m', ((SparkModel.init [[4]] "synchronous" "epoch" "http" none 32 4000 [] false).fit_run
        [([[2]], 0), ([[6]], 1)] []).1 = Except.ok m' ∧
        m'.weights = subtract_params
          (SparkModel.init [[4]] "synchronous" "epoch" "http" none 32 4000 [] false).weights
          (divide_by (sum_params ([([[2]], 0), ([[6]], 1)].map Prod.fst))
            ([([[2]], 0), ([[6]], 1)] : List (WeightSet × ℕ)).length)) ∧
    ((SparkModel.init [[4]] "synchronous" "epoch" "http" none 32 4000 [] false).fit_run
        [([[2]], 0), ([[6]], 1)] []).1.map SparkModel.weights
      = ((SparkModel.init [[4]] "synchronous" "epoch" "http" none 32 4000 [] false).fit_run
        [([[6]], 1), ([[2]], 0)] []).1.map SparkModel.weights :=
  c1_synchronous_fit_averaging _ rfl _ _ (by simp)
    (List.Perm.swap ([[6]], 1) ([[2]], 0) []) [] []

lemma async_fit_weights (w : WeightSet) (mode frequency psm : String)
    (nw : Option ℕ) (bs port : ℕ) (kw : List (String × String)) (ml : Bool)
    (hm : mode = "asynchronous" ∨ mode = "hogwild")
    (outcomes : List (WeightSet × ℕ)) (deltas : List WeightSet) :
    ∃ m', ((SparkModel.init w mode frequency psm nw bs port kw ml).fit_run outcomes deltas).1
        = Except.ok m' ∧ m'.weights = deltas.foldl apply_delta w := by
  have hps : (SparkModel.init w mode frequency psm nw bs port kw ml).parameter_server
      = some w := by
    rcases hm with h | h <;> subst h <;>
      simp only [SparkModel.init] <;> rw [if_pos (by decide)]
  rcases hm with h | h <;>
  · rw [SparkModel.fit_run, if_pos (by simp [SparkModel.init, h]),
      SparkModel.fit_inner, if_pos (by simp [SparkModel.init, h]), hps]
    exact ⟨_, rfl, rfl⟩

/-- Claim C2: in asynchronous and hogwild modes, after the distributed
dispatch completes, fit fetches the final parameter snapshot via
get_parameters and sets exactly that snapshot as the master weights; with
a single partition pushing a single delta, the master weights equal
initial_weights - delta. -/
theorem c2_async_fit_sets_snapshot (w : WeightSet) (mode frequency psm : String)
    (nw : Option ℕ) (bs port : ℕ) (kw : List (String × String)) (ml : Bool)
    (hm : mode = "asynchronous" ∨ mode = "hogwild")
    (outcomes : List (WeightSet × ℕ)) (deltas : List WeightSet) :
    (∃ m', ((SparkModel.init w mode frequency psm nw bs port kw ml).fit_run outcomes deltas).1
        = Except.ok m' ∧ m'.weights = deltas.foldl apply_delta w) ∧
    (∀ d : WeightSet, deltas = [d] →
      ((SparkModel.init w mode frequency psm nw bs port kw ml).fit_run outcomes deltas).1.map
          SparkModel.weights = Except.ok (subtract_params w d)) := by
  obtain ⟨m', hrun, hw⟩ :=
    async_fit_weights w mode frequency psm nw bs port kw ml hm outcomes deltas
  refine ⟨⟨m', hrun, hw⟩, ?_⟩
  intro d hd
  subst hd
  rw [hrun]
  simp only [Except.map, hw]
  rfl

/-- Witness for C2: one partition pushing one delta in asynchronous mode. -/
theorem c2_async_fit_sets_snapshot_witness :
    (∃ m', ((SparkModel.init [[5]] "asynchronous" "epoch" "http" none 32 4000 [] false).fit_run
        [] [[[2]]]).1 = Except.ok m' ∧
        m'.weights = ([[[2]]] : List WeightSet).foldl apply_delta [[5]]) ∧
    (∀ d : WeightSet, ([[[2]]] : List WeightSet) = [d] →
      ((SparkModel.init [[5]] "asynchronous" "epoch" "http" none 32 4000 [] false).fit_run
        [] [[[2]]]).1.map SparkModel.weights = Except.ok (subtract_params [[5]] d)) :=
  c2_async_fit_sets_snapshot [[5]] "asynchronous" "epoch" "http" none 32 4000 [] false
    (Or.inl rfl) [] [[[2]]]

/-- Claim C6: fit with a mode outside the three supported ones raises the
configuration error at once: the result is the error, no dispatch event
is emitted, and no updated orchestrator state is produced. -/
theorem c6_fit_invalid_mode (m : SparkModel)
    (h1 : m.mode ≠ "asynchronous") (h2 : m.mode ≠ "synchronous") (h3 : m.mode ≠ "hogwild")
    (outcomes : List (WeightSet × ℕ)) (deltas : List WeightSet) :
    m.fit_run outcomes deltas
      = (Except.error "Choose from one of the modes: asynchronous, synchronous or hogwild", [])
    ∧ FitEv.dispatch ∉ (m.fit_run outcomes deltas).2
    ∧ ∀ m', (m.fit_run outcomes deltas).1 ≠ Except.ok m' := by
  have hno : ¬ (m.mode = "asynchronous" ∨ m.mode = "synchronous" ∨ m.mode = "hogwild") := by
    rintro (h | h | h)
    · exact h1 h
    · exact h2 h
    · exact h3 h
  have hrun : m.fit_run outcomes deltas
      = (Except.error "Choose from one of the modes: asynchronous, synchronous or hogwild",
          []) := by
    rw [SparkModel.fit_run, if_neg hno]
  refine ⟨hrun, ?_, ?_⟩
  · rw [hrun]; simp
  · intro m'; rw [hrun]; simp

/-- Witness for C6: fit with the unsupported mode string "foo". -/
theorem c6_fit_invalid_mode_witness :
    (SparkModel.init [[1]] "foo" "epoch" "http" none 32 4000 [] false).fit_run [] []
      = (Except.error "Choose from one of the modes: asynchronous, synchronous or hogwild", [])
    ∧ FitEv.dispatch ∉ ((SparkModel.init [[1]] "foo" "epoch" "http" none 32 4000 [] false).fit_run
        [] []).2
    ∧ ∀ m', ((SparkModel.init [[1]] "foo" "epoch" "http" none 32 4000 [] false).fit_run [] []).1
        ≠ Except.ok m' :=
  c6_fit_invalid_mode _ (by decide) (by decide) (by decide) [] []

/-- Counterexample for C7: in a concrete asynchronous fit the trace sets
the master weights at position 2 and stops the server at position 3, so
the server is not stopped before the final weights are set, contrary to
the claim. -/
theorem c7_counterexample :
    ((SparkModel.init [] "asynchronous" "epoch" "http" none 32 4000 [] false).fit_run
        [] []).2
      = [FitEv.startServer, FitEv.dispatch, FitEv.setWeights, FitEv.stopServer] ∧
    ¬ (List.indexOf FitEv.stopServer
          ((SparkModel.init [] "asynchronous" "epoch" "http" none 32 4000 [] false).fit_run
            [] []).2
        < List.indexOf FitEv.setWeights
          ((SparkModel.init [] "asynchronous" "epoch" "http" none 32 4000 [] false).fit_run
            [] []).2) := by
  constructor
  · rfl
  · decide

/-- Claim C7 (amended): a parameter server and client are created at
construction iff mode ≠ synchronous; each asynchronous or hogwild fit
starts the server before dispatching workers and stops it after
reconciliation, setting the final weights on the master model before
stopping the server; a synchronous fit never starts or stops a server. -/
theorem c7_amended_server_lifecycle
    (w : WeightSet) (mode frequency psm : String) (nw : Option ℕ) (bs port : ℕ)
    (kw : List (String × String)) (ml : Bool) (m : SparkModel)
    (outcomes : List (WeightSet × ℕ)) (deltas : List WeightSet) :
    ((SparkModel.init w mode frequency psm nw bs port kw ml).parameter_server.isSome = true
        ↔ mode ≠ "synchronous") ∧
    ((SparkModel.init w mode frequency psm nw bs port kw ml).has_client = true
        ↔ mode ≠ "synchronous") ∧
    (m.mode = "asynchronous" ∨ m.mode = "hogwild" →
      (m.fit_run outcomes deltas).2
        = [FitEv.startServer, FitEv.dispatch, FitEv.setWeights, FitEv.stopServer]) ∧
    (m.mode = "synchronous" →
      FitEv.startServer ∉ (m.fit_run outcomes deltas).2 ∧
      FitEv.stopServer ∉ (m.fit_run outcomes deltas).2) := by
  refine ⟨?_, ?_, ?_, ?_⟩
  · by_cases h : mode = "synchronous" <;> simp [SparkModel.init, h]
  · by_cases h : mode = "synchronous" <;> simp [SparkModel.init, h]
  · intro hm
    rcases hm with h | h <;>
    · rw [SparkModel.fit_run, if_pos (by simp [h]), SparkModel.fit_inner,
        if_pos (by simp [h])]
  · intro h
    rw [SparkModel.fit_run, if_pos (Or.inr (Or.inl h)), SparkModel.fit_inner,
      if_neg (by rw [h]; decide), if_pos h]
    constructor <;> simp

/-- Witness for C7 (amended): concrete asynchronous and synchronous runs. -/
theorem c7_amended_server_lifecycle_witness :
    ((SparkModel.init [] "hogwild" "epoch" "http" none 32 4000 [] false).parameter_server.isSome
        = true ↔ ("hogwild" : String) ≠ "synchronous") ∧
    ((SparkModel.init [] "hogwild" "epoch" "http" none 32 4000 [] false).has_client = true
        ↔ ("hogwild" : String) ≠ "synchronous") ∧
    (("hogwild" : String) = "asynchronous" ∨ ("hogwild" : String) = "hogwild" →
      ((SparkModel.init [] "hogwild" "epoch" "http" (some 3) 32 4000 [] false).fit_run [] []).2
        = [FitEv.startServer, FitEv.dispatch, FitEv.setWeights, FitEv.stopServer]) ∧
    (("hogwild" : String) = "synchronous" →
      FitEv.startServer ∉ ((SparkModel.init [] "hogwild" "epoch" "http" (some 3) 32 4000 []
          false).fit_run [] []).2 ∧
      FitEv.stopServer ∉ ((SparkModel.init [] "hogwild" "epoch" "http" (some 3) 32 4000 []
          false).fit_run [] []).2) :=
  c7_amended_server_lifecycle [] "hogwild" "epoch" "http" none 32 4000 [] false
    (SparkModel.init [] "hogwild" "epoch" "http" (some 3) 32 4000 [] false) [] []

/-- The content of a persisted model file written by `SparkModel.save`
(spark_model.py lines 92-134): the standard keras payload (architecture
and weights, opaque here) plus the embedded `distributed_config` metadata
block recording the class name and the configuration (lines 119-122). -/
structure SavedFile where
  architecture : String
  saved_weights : WeightSet
  class_name : String
  config : Config
deriving DecidableEq

/-- File content written by `SparkModel.save` (spark_model.py lines
115-125): keras `model.save` stores the master network, architecture and
current weights, and the `distributed_config` attribute records
`self.__class__.__name__` and `self.get_config()`. -/
def SparkModel.save_file (m : SparkModel) (architecture : String) : SavedFile :=
  { architecture := architecture
    saved_weights := m.weights
    class_name := if m.is_mllib then "SparkMLlibModel" else "SparkModel"
    config := m.get_config }

/-- `load_spark_model` (spark_model.py lines 355-390): reads the keras
model back (same architecture and weights, the keras round trip is
modelled from the spec ModelDescriptor invariant), reads the
`distributed_config` block, and dispatches on `class_name`; any other
class name falls through both branches and the function returns `None`.
Reconstruction calls the constructor with the loaded model and
`**config`; the port is not part of the config, so the default 4000 is
used. -/
def load_spark_model (f : SavedFile) : Option SparkModel :=
  if f.class_name = "SparkModel" then
    some (SparkModel.init f.saved_weights f.config.mode f.config.frequency
      f.config.parameter_server_mode f.config.num_workers f.config.batch_size 4000
      f.config.extra false)
  else if f.class_name = "SparkMLlibModel" then
    some (SparkModel.init f.saved_weights f.config.mode f.config.frequency
      f.config.parameter_server_mode f.config.num_workers f.config.batch_size 4000
      f.config.extra true)
  else
    none

/-- Claim C5: loading a file saved by `save` reconstructs an orchestrator
of the same class whose configuration (parameter_server_mode, mode,
frequency, num_workers, batch_size and extra kwargs) and weights equal
those at save time. -/
theorem c5_save_load_round_trip (m : SparkModel) (architecture : String) :
    ∃ m', load_spark_model (m.save_file architecture) = some m' ∧
      m'.get_config = m.get_config ∧ m'.weights = m.weights ∧ m'.is_mllib = m.is_mllib := by
  cases hml : m.is_mllib with
  | false =>
    have hf : (m.save_file architecture).class_name = "SparkModel" := by
      simp [SparkModel.save_file, hml]
    have hload : load_spark_model (m.save_file architecture)
        = some (SparkModel.init (m.save_file architecture).saved_weights
            (m.save_file architecture).config.mode
            (m.save_file architecture).config.frequency
            (m.save_file architecture).config.parameter_server_mode
            (m.save_file architecture).config.num_workers
            (m.save_file architecture).config.batch_size 4000
            (m.save_file architecture).config.extra false) := by
      rw [load_spark_model, if_pos hf]
    exact ⟨_, hload, rfl, rfl, rfl⟩
  | true =>
    have hf : (m.save_file architecture).class_name = "SparkMLlibModel" := by
      simp [SparkModel.save_file, hml]
    have hload : load_spark_model (m.save_file architecture)
        = some (SparkModel.init (m.save_file architecture).saved_weights
            (m.save_file architecture).config.mode
            (m.save_file architecture).config.frequency
            (m.save_file architecture).config.parameter_server_mode
            (m.save_file architecture).config.num_workers
            (m.save_file architecture).config.batch_size 4000
            (m.save_file architecture).config.extra true) := by
      rw [load_spark_model, hf, if_neg (by decide), if_pos rfl]
    exact ⟨_, hload, rfl, rfl, rfl⟩

/-- States of the destination file during a local save. -/
inductive FileContent
  | absent
  | old
  | fresh
deriving DecidableEq

/-- keras `model.save`, called at spark_model.py line 116: its default is
`overwrite=True`, so it writes the destination replacing any existing
content without raising. -/
def keras_save (_prior : FileContent) : FileContent :=
  FileContent.fresh

/-- Local-filesystem effect of `SparkModel.save` with `to_hadoop=False`
(spark_model.py lines 104-117): when `overwrite` is set and the file
exists it is unlinked first (lines 108-109); then `model.save` writes the
file.  No branch checks existence when `overwrite` is absent, and no
branch raises. -/
def save_local (file_exists overwrite : Bool) : Except String FileContent :=
  let current := if file_exists then FileContent.old else FileContent.absent
  let current := if overwrite && file_exists then FileContent.absent else current
  Except.ok (keras_save current)

/-- Claim C8 (code bug): saving with `overwrite=False` onto an existing
destination completes and replaces the file with fresh content, exactly
as with `overwrite=True`, instead of failing as the docstring of `save`
promises. -/
theorem c8_save_overwrites_without_flag :
    save_local true false = Except.ok FileContent.fresh ∧
    save_local true true = Except.ok FileContent.fresh :=
  ⟨rfl, rfl⟩

/-- Outcome record of a hadoop-backed save or load: the call result and
whether the local temp file is still present afterwards. -/
structure HadoopRun where
  result : Except String Unit
  temp_file_remains : Bool

/-- Cluster-filesystem tail of `SparkModel.save` (spark_model.py lines
127-134): the model was written to a local temp file, and
`hadoop fs -moveFromLocal` transfers it; `subprocess.run` is not checked,
so the call returns normally either way, and only a successful move
removes the local temp file. -/
def save_to_hadoop_run (move_ok : Bool) : HadoopRun :=
  { result := Except.ok (), temp_file_remains := !move_ok }

/-- Cluster-filesystem path of `load_spark_model` (spark_model.py lines
371-384): `copyToLocal` writes the temp file when it succeeds, the model
and its metadata are then read, and only after a successful read is the
temp file unlinked (line 384); a read failure raises before the unlink
runs. -/
def load_from_hadoop_run (copy_ok read_ok : Bool) : HadoopRun :=
  if copy_ok then
    if read_ok then { result := Except.ok (), temp_file_remains := false }
    else { result := Except.error "failed to read model file", temp_file_remains := true }
  else
    { result := Except.error "failed to read model file", temp_file_remains := false }

/-- Counterexample for C9: a hadoop load whose transfer wrote the temp
file but whose read fails leaves the temp file behind, so the temp file
is not always cleaned up. -/
theorem c9_counterexample :
    (load_from_hadoop_run true false).temp_file_remains = true ∧
    (load_from_hadoop_run true false).result = Except.error "failed to read model file" :=
  ⟨rfl, rfl⟩

/-- Claim C9 (amended): during hadoop save and load the temp file is
cleaned up exactly on success: a successful load unlinks it and a
successful move removes it, while a read failure after the transfer has
written the temp file, or a failed move, leaves the temp file behind. -/
theorem c9_amended_temp_cleanup :
    ∀ move_ok copy_ok read_ok : Bool,
      (save_to_hadoop_run move_ok).temp_file_remains = !move_ok ∧
      (load_from_hadoop_run copy_ok read_ok).temp_file_remains = (copy_ok && !read_ok) := by
  decide

/-- Claim C10: a file whose embedded metadata block records a class name
other than SparkModel or SparkMLlibModel makes load_spark_model fall
through both dispatch branches and return none, with no error raised. -/
theorem c10_load_unknown_class_none (f : SavedFile)
    (h1 : f.class_name ≠ "SparkModel") (h2 : f.class_name ≠ "SparkMLlibModel") :
    load_spark_model f = none := by
  rw [load_spark_model, if_neg h1, if_neg h2]

/-- Witness for C10: a file recording the unknown class name
ElephasModel. -/
theorem c10_load_unknown_class_none_witness :
    load_spark_model
      { architecture := "net"
        saved_weights := [[1]]
        class_name := "ElephasModel"
        config := { parameter_server_mode := "http"
                    mode := "asynchronous"
                    frequency := "epoch"
                    num_workers := none
                    batch_size := 32
                    extra := [] } }
      = none :=
  c10_load_unknown_class_none _ (by decide) (by decide)

/-- x[-1], the last entry of a per-partition result list. -/
def last_entry (x : List ℚ) : ℚ := x.getD (x.length - 1) 0

/-- The mapping lambda of `SparkModel._evaluate` (spark_model.py line
300): `tuple(x[-1] * x[i] for i in range(len(x) - 1)) + (x[-1],)`. -/
def mapping_function (x : List ℚ) : List ℚ :=
  ((List.range (x.length - 1)).map fun i => last_entry x * x.getD i 0) ++ [last_entry x]

/-- The reducing lambda of `SparkModel._evaluate` (spark_model.py line
301): `tuple(x[i] + y[i] for i in range(len(x)))`. -/
def reducing_function (x y : List ℚ) : List ℚ :=
  (List.range x.length).map fun i => x.getD i 0 + y.getD i 0

/-- Aggregation of `SparkModel._evaluate` (spark_model.py lines 297-308)
over the collected per-partition results, each of the form
`evaluation_results + [len(x_test)]` (the keras evaluation itself is
external).  The results are mapped and reduced (Spark reduce raises on an
empty collection: none), the reduced tuple is unpacked as
`agg_loss, *agg_metrics, number_of_samples` (raising when it has fewer
than two entries: none), every value is divided by the total sample
count, and the scalar loss alone is returned when there are no
metrics. -/
def evaluate_agg : List (List ℚ) → Option (List ℚ ⊕ ℚ)
  | [] => none
  | r :: rs =>
    let agg := (rs.map mapping_function).foldl reducing_function (mapping_function r)
    if 2 ≤ agg.length then
      let avg_loss := agg.getD 0 0 / last_entry agg
      let avg_metrics := ((agg.drop 1).dropLast).map (fun v => v / last_entry agg)
      if avg_metrics.isEmpty then some (Sum.inr avg_loss)
      else some (Sum.inl (avg_loss :: avg_metrics))
    else none

lemma mapping_pair (L n : ℚ) : mapping_function [L, n] = [n * L, n] := rfl

lemma reducing_pair (a b c d : ℚ) : reducing_function [a, b] [c, d] = [a + c, b + d] := rfl

lemma foldl_reduce_pairs (ps : List (ℚ × ℚ)) :
    ∀ a b : ℚ, (ps.map fun p => [p.2 * p.1, p.2]).foldl reducing_function [a, b]
      = [a + (ps.map fun p => p.2 * p.1).sum, b + (ps.map Prod.snd).sum] := by
  induction ps with
  | nil => intro a b; simp
  | cons p ps ih =>
    intro a b
    simp only [List.map_cons, List.foldl_cons, reducing_pair, List.sum_cons]
    rw [ih]
    rw [add_assoc, add_assoc]

lemma eval_loss_only (q : ℚ × ℚ) (qs : List (ℚ × ℚ)) :
    evaluate_agg ((q :: qs).map fun p => [p.1, p.2])
      = some (Sum.inr ((q.2 * q.1 + (qs.map fun p => p.2 * p.1).sum)
          / (q.2 + (qs.map Prod.snd).sum))) := by
  have hmap : (qs.map fun p => [p.1, p.2]).map mapping_function
      = qs.map (fun p => [p.2 * p.1, p.2]) := by
    rw [List.map_map]
    exact List.map_congr_left (fun p _ => mapping_pair p.1 p.2)
  simp only [List.map_cons, evaluate_agg, hmap, mapping_pair, foldl_reduce_pairs]
  norm_num [last_entry]

/-- The weighted values of one partition result: each of its loss and
metric values multiplied by the partition sample count. -/
def weighted_values (q : List ℚ × ℚ) : List ℚ := q.1.map (fun v => q.2 * v)

/-- Pointwise sum of a collection of equal-length value lists, folded from
the first element. -/
def sum_values : List (List ℚ) → List ℚ
  | [] => []
  | v :: vs => vs.foldl (List.zipWith (· + ·)) v

lemma range_map_getD (l : List ℚ) (g : ℚ → ℚ) :
    (List.range l.length).map (fun i => g (l.getD i 0)) = l.map g := by
  induction l with
  | nil => rfl
  | cons a l ih =>
    rw [List.length_cons, List.range_succ_eq_map]
    simp only [List.map_cons, List.map_map]
    refine List.cons_eq_cons.mpr ⟨rfl, ?_⟩
    rw [← ih]
    exact List.map_congr_left (fun i _ => rfl)

lemma last_entry_append (vals : List ℚ) (n : ℚ) : last_entry (vals ++ [n]) = n := by
  induction vals with
  | nil => rfl
  | cons a vs ih =>
    have hlen : ((a :: vs) ++ [n]).length - 1 = vs.length + 1 := by simp
    rw [last_entry, hlen, List.cons_append, List.getD_cons_succ]
    have hlen2 : (vs ++ [n]).length - 1 = vs.length := by simp
    rw [last_entry, hlen2] at ih
    exact ih

lemma mapping_function_append (vals : List ℚ) (n : ℚ) :
    mapping_function (vals ++ [n]) = vals.map (fun v => n * v) ++ [n] := by
  rw [mapping_function, last_entry_append]
  have hlen : (vals ++ [n]).length - 1 = vals.length := by simp
  rw [hlen]
  congr 1
  have h1 : ∀ i ∈ List.range vals.length,
      n * (vals ++ [n]).getD i 0 = n * vals.getD i 0 := fun i hi => by
    rw [List.getD_append _ _ _ _ (List.mem_range.mp hi)]
  rw [List.map_congr_left h1]
  exact range_map_getD vals (fun v => n * v)

lemma reducing_function_zipWith :
    ∀ x y : List ℚ, x.length = y.length →
      reducing_function x y = List.zipWith (· + ·) x y := by
  intro x
  induction x with
  | nil => intro y _; rfl
  | cons a xs ih =>
    intro y h
    cases y with
    | nil => simp at h
    | cons b ys =>
      rw [reducing_function, List.length_cons, List.range_succ_eq_map]
      simp only [List.map_cons, List.map_map, List.zipWith_cons_cons]
      refine List.cons_eq_cons.mpr ⟨rfl, ?_⟩
      have hxy := ih ys (by simpa using h)
      rw [reducing_function] at hxy
      rw [← hxy]
      exact List.map_congr_left (fun i _ => rfl)

lemma foldl_reduce_weighted (k : ℕ) :
    ∀ ps : List (List ℚ × ℚ), (∀ q ∈ ps, q.1.length = k) →
      ∀ (acc : List ℚ) (cnt : ℚ), acc.length = k →
        (ps.map (fun q => weighted_values q ++ [q.2])).foldl reducing_function
            (acc ++ [cnt])
          = (ps.map weighted_values).foldl (List.zipWith (· + ·)) acc
              ++ [cnt + (ps.map Prod.snd).sum] := by
  intro ps
  induction ps with
  | nil => intro _ acc cnt _; simp
  | cons q ps ih =>
    intro hps acc cnt hacc
    have hq : q.1.length = k := hps q (List.mem_cons_self q ps)
    have hwlen : (weighted_values q).length = k := by simp [weighted_values, hq]
    simp only [List.map_cons, List.foldl_cons, List.sum_cons]
    rw [reducing_function_zipWith _ _ (by simp [hwlen, hacc]),
      List.zipWith_append _ _ _ _ _ (by rw [hwlen, hacc]),
      List.zipWith_cons_cons, List.zipWith_nil_right,
      ih (fun r hr => hps r (List.mem_cons_of_mem q hr)) _ (cnt + q.2)
        (by simp [List.length_zipWith, hwlen, hacc]),
      add_assoc]

lemma sum_values_len (k : ℕ) :
    ∀ vs : List (List ℚ), (∀ v ∈ vs, v.length = k) →
      ∀ acc : List ℚ, acc.length = k →
        (vs.foldl (List.zipWith (· + ·)) acc).length = k := by
  intro vs
  induction vs with
  | nil => intro _ acc hacc; exact hacc
  | cons v vs ih =>
    intro h acc hacc
    simp only [List.foldl_cons]
    exact ih (fun u hu => h u (List.mem_cons_of_mem v hu)) _
      (by simp [List.length_zipWith, hacc, h v (List.mem_cons_self v vs)])

lemma evaluate_agg_weighted (p : List ℚ × ℚ) (ps : List (List ℚ × ℚ))
    (hk : ∀ q ∈ ps, q.1.length = p.1.length) (s0 : ℚ) (S2 : List ℚ)
    (hS : sum_values ((p :: ps).map weighted_values) = s0 :: S2) :
    evaluate_agg ((p :: ps).map (fun q => q.1 ++ [q.2]))
      = some (if S2.isEmpty
          then Sum.inr (s0 / (p.2 + (ps.map Prod.snd).sum))
          else Sum.inl ((s0 :: S2).map
            (fun v => v / (p.2 + (ps.map Prod.snd).sum)))) := by
  have hmaps : ((ps.map fun q => q.1 ++ [q.2]).map mapping_function)
      = ps.map (fun q => weighted_values q ++ [q.2]) := by
    rw [List.map_map]
    exact List.map_congr_left (fun q _ => mapping_function_append q.1 q.2)
  simp only [List.map_cons, sum_values] at hS
  simp only [List.map_cons, evaluate_agg, hmaps, mapping_function_append]
  rw [show (p.1.map fun v => p.2 * v) = weighted_values p from rfl,
    foldl_reduce_weighted p.1.length ps hk (weighted_values p) p.2
      (by simp [weighted_values]),
    hS]
  have hlast : last_entry ((s0 :: S2) ++ [p.2 + (ps.map Prod.snd).sum])
      = p.2 + (ps.map Prod.snd).sum := last_entry_append _ _
  rw [List.cons_append] at hlast
  rw [List.cons_append, if_pos (by simp)]
  simp only [hlast, List.getD_cons_zero, List.drop_succ_cons, List.drop_zero,
    List.dropLast_concat]
  cases S2 with
  | nil => simp
  | cons m M => simp

/-- Claim C3: for every evaluation over partitions, evaluate aggregates
per-partition results by a size-weighted average: each partition's loss
and metric values are multiplied by its sample count, summed pointwise
across all partitions, and divided by the total sample count — for any
number of partitions and any number of metrics (scalar loss returned when
there are no metrics); for two partitions of sizes m and n with losses L1
and L2 the aggregate loss is (L1*m + L2*n)/(m+n), not (L1+L2)/2. -/
theorem c3_evaluate_weighted_average (p : List ℚ × ℚ) (ps : List (List ℚ × ℚ))
    (hk : ∀ q ∈ ps, q.1.length = p.1.length) (hk1 : 1 ≤ p.1.length)
    (htot : p.2 + (ps.map Prod.snd).sum ≠ 0) :
    (p.1.length = 1 →
      evaluate_agg ((p :: ps).map (fun q => q.1 ++ [q.2]))
        = some (Sum.inr ((sum_values ((p :: ps).map weighted_values)).getD 0 0
            / (p.2 + (ps.map Prod.snd).sum)))) ∧
    (2 ≤ p.1.length →
      evaluate_agg ((p :: ps).map (fun q => q.1 ++ [q.2]))
        = some (Sum.inl ((sum_values ((p :: ps).map weighted_values)).map
            (fun v => v / (p.2 + (ps.map Prod.snd).sum))))) ∧
    (∀ (q : ℚ × ℚ) (qs : List (ℚ × ℚ)),
      evaluate_agg ((q :: qs).map fun r => [r.1, r.2])
        = some (Sum.inr ((q.1 * q.2 + (qs.map fun r => r.1 * r.2).sum)
            / (q.2 + (qs.map Prod.snd).sum)))) ∧
    (∀ L1 M1 L2 M2 m n : ℚ, m + n ≠ 0 →
      evaluate_agg [[L1, M1, m], [L2, M2, n]]
        = some (Sum.inl [(L1 * m + L2 * n) / (m + n), (M1 * m + M2 * n) / (m + n)])) ∧
    evaluate_agg [[0, 1], [1, 3]] = some (Sum.inr (3 / 4)) ∧
    ((3 : ℚ) / 4 ≠ ((0 : ℚ) + 1) / 2) := by
  have hw : ∀ v ∈ ps.map weighted_values, v.length = p.1.length := by
    intro v hv
    obtain ⟨q, hq, rfl⟩ := List.mem_map.mp hv
    simp [weighted_values, hk q hq]
  have hSlen : (sum_values ((p :: ps).map weighted_values)).length = p.1.length := by
    simp only [List.map_cons, sum_values]
    exact sum_values_len p.1.length (ps.map weighted_values) hw _ (by simp [weighted_values])
  obtain ⟨s0, S2, hS⟩ : ∃ s0 S2,
      sum_values ((p :: ps).map weighted_values) = s0 :: S2 := by
    cases hS0 : sum_values ((p :: ps).map weighted_values) with
    | nil =>
      rw [hS0] at hSlen
      simp only [List.length_nil] at hSlen
      omega
    | cons a l => exact ⟨a, l, rfl⟩
  have hmain := evaluate_agg_weighted p ps hk s0 S2 hS
  refine ⟨?_, ?_, ?_, ?_, ?_, by norm_num⟩
  · intro h1
    have hS2 : S2 = [] := by
      rw [hS] at hSlen
      simp only [List.length_cons, h1] at hSlen
      exact List.eq_nil_of_length_eq_zero (by omega)
    rw [hmain, hS2, hS]
    simp
  · intro h2
    have hS2 : S2 ≠ [] := by
      rw [hS] at hSlen
      intro hnil
      rw [hnil] at hSlen
      simp at hSlen
      omega
    rw [hmain, hS]
    simp [List.isEmpty_iff, hS2]
  · intro q qs
    rw [eval_loss_only q qs]
    have h1 : q.2 * q.1 = q.1 * q.2 := mul_comm _ _
    have h2 : (qs.map fun r => r.2 * r.1) = qs.map fun r => r.1 * r.2 :=
      List.map_congr_left (fun r _ => mul_comm _ _)
    rw [h1, h2]
  · intro L1 M1 L2 M2 m n _
    have h1 : mapping_function [L1, M1, m] = [m * L1, m * M1, m] := rfl
    have h2 : mapping_function [L2, M2, n] = [n * L2, n * M2, n] := rfl
    have h3 : reducing_function [m * L1, m * M1, m] [n * L2, n * M2, n]
        = [m * L1 + n * L2, m * M1 + n * M2, m + n] := rfl
    simp only [evaluate_agg, List.map_cons, List.map_nil, List.foldl_cons, List.foldl_nil,
      h1, h2, h3]
    norm_num [last_entry]
    constructor
    · ring_nf
    · ring_nf
  · have h := eval_loss_only (0, 1) [(1, 3)]
    norm_num at h
    convert h using 3

/-- First partition of the C3 witness: loss 1, metrics 2 and 3, count 2. -/
def c3_head : List ℚ × ℚ := ([1, 2, 3], 2)

/-- Remaining partitions of the C3 witness: two more partitions with two
metrics each, counts 1 and 1. -/
def c3_tail : List (List ℚ × ℚ) := [([4, 5, 6], 1), ([7, 8, 9], 1)]

/-- Witness for C3: three partitions of unequal sizes, each carrying a
loss and two metrics. -/
theorem c3_evaluate_weighted_average_witness :
    (c3_head.1.length = 1 →
      evaluate_agg ((c3_head :: c3_tail).map (fun q => q.1 ++ [q.2]))
        = some (Sum.inr ((sum_values ((c3_head :: c3_tail).map weighted_values)).getD 0 0
            / (c3_head.2 + (c3_tail.map Prod.snd).sum)))) ∧
    (2 ≤ c3_head.1.length →
      evaluate_agg ((c3_head :: c3_tail).map (fun q => q.1 ++ [q.2]))
        = some (Sum.inl ((sum_values ((c3_head :: c3_tail).map weighted_values)).map
            (fun v => v / (c3_head.2 + (c3_tail.map Prod.snd).sum))))) ∧
    (∀ (q : ℚ × ℚ) (qs : List (ℚ × ℚ)),
      evaluate_agg ((q :: qs).map fun r => [r.1, r.2])
        = some (Sum.inr ((q.1 * q.2 + (qs.map fun r => r.1 * r.2).sum)
            / (q.2 + (qs.map Prod.snd).sum)))) ∧
    (∀ L1 M1 L2 M2 m n : ℚ, m + n ≠ 0 →
      evaluate_agg [[L1, M1, m], [L2, M2, n]]
        = some (Sum.inl [(L1 * m + L2 * n) / (m + n), (M1 * m + M2 * n) / (m + n)])) ∧
    evaluate_agg [[0, 1], [1, 3]] = some (Sum.inr (3 / 4)) ∧
    ((3 : ℚ) / 4 ≠ ((0 : ℚ) + 1) / 2) :=
  c3_evaluate_weighted_average c3_head c3_tail
    (by intro q hq; simp only [c3_tail, List.mem_cons] at hq
        rcases hq with h | h | h
        · rw [h]; rfl
        · rw [h]; rfl
        · simp at h)
    (by norm_num [c3_head])
    (by norm_num [c3_head, c3_tail])

/-- `rdd.zipWithIndex()` (spark_model.py line 262): each element tagged
with its original index. -/
def zipWithIndex (xs : List α) : List (α × ℕ) := xs.zip (List.range xs.length)

/-- The per-partition `_predict` closure of `SparkModel._predict`
(spark_model.py lines 244-248): materialize the partition and run the
opaque model prediction, one output row per input row in order (model
interface of the spec, section 6). -/
def predict_partition (f : α → β) (data : List α) : List β := data.map f

/-- The per-partition `_predict_with_indices` closure (spark_model.py
lines 250-255): `data, indices = zip(*data)` (which raises on an empty
partition: none), predict the rows, and zip the predictions back with the
indices. -/
def predict_with_indices (f : α → β) (data : List (α × ℕ)) : Option (List (β × ℕ)) :=
  match data with
  | [] => none
  | _ :: _ => some ((data.unzip.1.map f).zip data.unzip.2)

/-- The key ordering of `sortBy(lambda x: x[1])` (spark_model.py line
265). -/
def idx_le (p q : α × ℕ) : Prop := p.2 ≤ q.2

instance {α : Type _} : DecidableRel (@idx_le α) :=
  fun p q => inferInstanceAs (Decidable (p.2 ≤ q.2))

instance {α : Type _} : IsTotal (α × ℕ) idx_le :=
  ⟨fun a b => Nat.le_total a.2 b.2⟩

instance {α : Type _} : IsTrans (α × ℕ) idx_le :=
  ⟨fun _ _ _ h h2 => Nat.le_trans h h2⟩

/-- The `num_workers > 1` branch of `SparkModel._predict` (spark_model.py
lines 257-266): the input has been tagged with indices and repartitioned
(the engine may emit the tagged elements in any partition arrangement,
given as `partitions`); predictions are computed per partition, the
collected results are sorted by index and the indices are stripped. -/
def predict_multi (f : α → β) (partitions : List (List (α × ℕ))) : Option (List β) :=
  (partitions.mapM (predict_with_indices f)).map
    (fun results => ((results.flatten).insertionSort idx_le).map Prod.fst)

/-- The `num_workers` absent-or-one branch of `SparkModel._predict`
(spark_model.py lines 267-270): no tagging and no sorting, the partitions
are processed and collected in order. -/
def predict_single (f : α → β) (partitions : List (List α)) : List β :=
  (partitions.map (predict_partition f)).flatten

lemma zip_map_unzip (f : α → β) :
    ∀ l : List (α × ℕ), (l.unzip.1.map f).zip l.unzip.2 = l.map (fun q => (f q.1, q.2)) := by
  intro l
  induction l with
  | nil => rfl
  | cons q l ih =>
    simp only [List.unzip_cons, List.map_cons, List.zip_cons_cons] at ih ⊢
    rw [← ih]

lemma predict_with_indices_eq (f : α → β) (data : List (α × ℕ)) (h : data ≠ []) :
    predict_with_indices f data = some (data.map (fun q => (f q.1, q.2))) := by
  cases data with
  | nil => exact absurd rfl h
  | cons d ds =>
    simp only [predict_with_indices]
    rw [zip_map_unzip]

lemma mapM_predict (f : α → β) :
    ∀ ps : List (List (α × ℕ)), (∀ p ∈ ps, p ≠ []) →
      ps.mapM (predict_with_indices f)
        = some (ps.map (fun p => p.map (fun q => (f q.1, q.2)))) := by
  intro ps
  induction ps with
  | nil => intro _; rfl
  | cons p ps ih =>
    intro h
    rw [List.mapM_cons, predict_with_indices_eq f p (h p (by simp)),
      ih (fun q hq => h q (by simp [hq]))]
    rfl

lemma join_map_f (f : α → β) (L : List (List α)) :
    (L.map (List.map f)).flatten = L.flatten.map f := by
  induction L with
  | nil => rfl
  | cons l L ih =>
    show List.map f l ++ (L.map (List.map f)).flatten = (l ++ L.flatten).map f
    rw [List.map_append, ih]

lemma sorted_map_snd {γ : Type _} {l : List (γ × ℕ)} (h : List.Sorted idx_le l) :
    (l.map Prod.snd).Sorted (· ≤ ·) :=
  List.Pairwise.map Prod.snd (fun _ _ hab => hab) h

lemma eq_of_perm_map_snd {γ : Type _} :
    ∀ (l₁ l₂ : List (γ × ℕ)), l₁.Perm l₂ → l₁.map Prod.snd = l₂.map Prod.snd →
      (l₁.map Prod.snd).Nodup → l₁ = l₂ := by
  intro l₁
  induction l₁ with
  | nil => intro l₂ hp _ _; exact (hp.symm.eq_nil).symm
  | cons a t ih =>
    intro l₂ hp hmap hnd
    cases l₂ with
    | nil => exact absurd hp.eq_nil (by simp)
    | cons b t₂ =>
      simp only [List.map_cons, List.cons_eq_cons] at hmap
      obtain ⟨ha2, hmt⟩ := hmap
      have hmem : a ∈ b :: t₂ := hp.subset (List.mem_cons_self a t)
      rcases List.mem_cons.mp hmem with hab | hat
      · subst hab
        have hnd' := List.nodup_cons.mp hnd
        rw [ih t₂ hp.cons_inv hmt hnd'.2]
      · exfalso
        have : a.2 ∈ t₂.map Prod.snd := List.mem_map_of_mem Prod.snd hat
        rw [← hmt] at this
        exact (List.nodup_cons.mp hnd).1 this

lemma sorted_unique {γ : Type _} {l₁ l₂ : List (γ × ℕ)} (hp : l₁.Perm l₂)
    (hs₁ : List.Sorted idx_le l₁) (hs₂ : List.Sorted idx_le l₂)
    (hnd : (l₁.map Prod.snd).Nodup) : l₁ = l₂ :=
  eq_of_perm_map_snd l₁ l₂ hp
    (List.eq_of_perm_of_sorted (hp.map Prod.snd) (sorted_map_snd hs₁) (sorted_map_snd hs₂))
    hnd

lemma zip_map_fst_pair (f : α → β) :
    ∀ (xs : List α) (ns : List ℕ),
      (xs.zip ns).map (fun q => (f q.1, q.2)) = (xs.map f).zip ns := by
  intro xs
  induction xs with
  | nil => intro ns; rfl
  | cons x xs ih =>
    intro ns
    cases ns with
    | nil => rfl
    | cons n ns => simp [ih]

lemma target_sorted {γ : Type _} (ys : List γ) (ns : List ℕ) (hns : ns.Sorted (· ≤ ·)) :
    List.Sorted idx_le (ys.zip ns) := by
  induction ys generalizing ns with
  | nil => simp
  | cons y ys ih =>
    cases ns with
    | nil => simp
    | cons n ns =>
      rw [List.zip_cons_cons, List.sorted_cons]
      refine ⟨fun b hb => ?_, ih ns (List.sorted_cons.mp hns).2⟩
      exact (List.sorted_cons.mp hns).1 b.2 (List.of_mem_zip hb).2

/-- Claim C4: with more than one worker, predict tags elements with their
index, predicts per partition, sorts by index and strips indices,
returning predictions in input order for every partition arrangement of
the tagged elements; with at most one worker no tagging or sorting
happens and order is preserved naturally. -/
theorem c4_predict_preserves_order (f : α → β) (xs : List α)
    (parts : List (List (α × ℕ))) (hne : ∀ p ∈ parts, p ≠ [])
    (hperm : parts.flatten.Perm (zipWithIndex xs))
    (sparts : List (List α)) (hj : sparts.flatten = xs) :
    predict_multi f parts = some (xs.map f) ∧ predict_single f sparts = xs.map f := by
  constructor
  · rw [predict_multi, mapM_predict f parts hne]
    have h1 : (parts.map (fun p => p.map (fun q => (f q.1, q.2)))).flatten
        = parts.flatten.map (fun q => (f q.1, q.2)) := join_map_f _ parts
    have htarget : (parts.flatten.map (fun q => (f q.1, q.2))).Perm
        ((xs.map f).zip (List.range xs.length)) := by
      have h2 := hperm.map (fun q => (f q.1, q.2))
      rwa [zipWithIndex, zip_map_fst_pair] at h2
    have hperm_s : (((parts.map (fun p => p.map (fun q => (f q.1, q.2)))).flatten.insertionSort
          idx_le)).Perm ((xs.map f).zip (List.range xs.length)) :=
      (List.perm_insertionSort _ _).trans (by rw [h1]; exact htarget)
    have hsorted_s := List.sorted_insertionSort idx_le
      ((parts.map (fun p => p.map (fun q => (f q.1, q.2)))).flatten)
    have hsorted_t : List.Sorted idx_le ((xs.map f).zip (List.range xs.length)) :=
      target_sorted _ _ (List.sorted_le_range _)
    have hnd : ((((parts.map (fun p => p.map (fun q => (f q.1, q.2)))).flatten.insertionSort
        idx_le)).map Prod.snd).Nodup := by
      have hkeys : ((xs.map f).zip (List.range xs.length)).map Prod.snd
          = List.range xs.length := List.map_snd_zip _ _ (by simp)
      have h3 := hperm_s.map Prod.snd
      rw [hkeys] at h3
      exact h3.nodup_iff.mpr (List.nodup_range _)
    have heq := sorted_unique hperm_s hsorted_s hsorted_t hnd
    simp only [Option.map_some']
    rw [heq, List.map_fst_zip _ _ (by simp)]
  · rw [predict_single, ← hj]
    exact join_map_f f sparts

/-- Witness for C4: six inputs split over three partitions of unequal
sizes in scrambled order, plus an in-order single-worker split. -/
theorem c4_predict_preserves_order_witness :
    predict_multi Nat.succ [[(30, 2)], [(60, 5), (10, 0), (20, 1)], [(50, 4), (40, 3)]]
        = some ([10, 20, 30, 40, 50, 60].map Nat.succ) ∧
    predict_single Nat.succ [[10, 20], [30, 40, 50], [60]]
        = [10, 20, 30, 40, 50, 60].map Nat.succ :=
  c4_predict_preserves_order Nat.succ [10, 20, 30, 40, 50, 60]
    [[(30, 2)], [(60, 5), (10, 0), (20, 1)], [(50, 4), (40, 3)]]
    (by decide) (List.isPerm_iff.mp (by decide)) [[10, 20], [30, 40, 50], [60]] rfl

end Elephas
